import Mathlib

/-!
# A shallow embedding of the trading-simulation account engine

This file embeds the account/ledger engine of `output/accounts.py` in Lean 4
and proves the specification's claims about it.

Modelling conventions:

* Python `Decimal` values are modelled by `ℚ`.  Every `Decimal` is an exact
  decimal rational; the context precision of 28 significant digits is never
  exceeded by the 2-fraction-digit currency values the engine stores, so all
  `Decimal` arithmetic performed by the engine is exact rational arithmetic.
* `ROUND_HALF_UP` quantization to `Decimal("0.01")` becomes `quantize_currency_q`:
  round to the nearest multiple of 1/100, ties away from zero.
* Python `datetime` values are modelled by `ℤ` (an abstract totally ordered
  instant; only comparisons and equality are used by the engine).
  `isoformat`/`fromisoformat` round-trip exactly on timezone-aware datetimes,
  so serialization of a timestamp is modelled as the identity.
* `str(decimal)` / `Decimal(string)` also round-trip exactly, so a serialized
  Money field is modelled by the exact rational value the decimal string denotes.
* Exceptions become `Except AccountError`.  A Python `raise` aborts the method
  before any assignment to `self` is executed, so a method that raises leaves
  the account unchanged; in the embedding this is reflected by the `.error`
  result carrying no account at all.
* The per-account mutex only sequentializes calls; the embedding is the
  sequential semantics of each operation.
* `uuid.uuid4().hex` is a fresh opaque identifier; no operation's result
  depends on its value, and we model it by the current ledger length.
* Python dicts are insertion-ordered maps; they are modelled by association
  lists with Python's update semantics (`dict_set` updates in place,
  appends new keys at the end; `dict_pop` removes the key).
-/

/-- The error taxonomy of `accounts.py` (`AccountError` subclasses). -/
inductive AccountError where
  | invalidTransaction
  | insufficientFunds
  | insufficientShares
deriving DecidableEq, Repr

/-- Shorthand for the result type of a fallible account operation. -/
abbrev Exc (α : Type) : Type := Except AccountError α

/-- `ROUND_HALF_UP` of a rational to an integer: nearest integer, ties away
from zero (the rounding mode used by `_quantize_currency`). -/
def roundHalfUp (x : ℚ) : ℤ :=
  if 0 ≤ x then ⌊x + 1 / 2⌋ else -⌊-x + 1 / 2⌋

/-- `Decimal.quantize(Decimal("0.01"), rounding=ROUND_HALF_UP)` on the exact
rational value: round to the nearest cent, ties away from zero. -/
def quantize_currency_q (q : ℚ) : ℚ :=
  (roundHalfUp (q * 100) : ℚ) / 100

/-- A rational that is representable with exactly 2 fraction digits, i.e. a
whole number of cents — the spec's `Money` values. -/
def IsMoney (q : ℚ) : Prop := ∃ n : ℤ, q = (n : ℚ) / 100

/-- A Python value passed to `_quantize_currency`: a `Decimal` (exact decimal
rational), a binary `float` (carrying the exact rational it happens to equal),
or an `int`.  Only the `Decimal` case passes the `isinstance` check. -/
inductive PyValue where
  | dec (q : ℚ)
  | pyFloat (q : ℚ)
  | pyInt (n : ℤ)
deriving DecidableEq, Repr

/-- `_quantize_currency(amount)`: raises `InvalidTransactionError` unless the
argument is a `Decimal`, otherwise quantizes to 2 fraction digits half-up. -/
def quantize_currency : PyValue → Exc ℚ
  | .dec q => .ok (quantize_currency_q q)
  | .pyFloat _ => .error .invalidTransaction
  | .pyInt _ => .error .invalidTransaction

/-- A pluggable price-lookup capability (`price_lookup` argument): may raise. -/
abbrev PriceFn : Type := String → Exc ℚ

/-- Python's default `str.strip()`/`str.upper()` whitespace test. -/
def is_py_space (c : Char) : Bool :=
  c = ' ' || c = '\t' || c = '\n' || c = '\r' || c = '\x0b' || c = '\x0c'

/-- `s.strip()`: drop leading and trailing whitespace. -/
def str_strip (s : String) : String :=
  ⟨((s.data.dropWhile is_py_space).reverse.dropWhile is_py_space).reverse⟩

/-- `s.upper()` (on the ASCII symbols the engine handles). -/
def str_upper (s : String) : String :=
  ⟨s.data.map Char.toUpper⟩

/-- `symbol.strip().upper()`: the symbol normalization used by the engine. -/
def normalize_symbol (s : String) : String := str_upper (str_strip s)

/-- `get_share_price(symbol)`: the default static price oracle. -/
def get_share_price (symbol : String) : Exc ℚ :=
  if symbol = "" then .error .invalidTransaction
  else
    let s := normalize_symbol symbol
    if s = "AAPL" then .ok (quantize_currency_q 150)
    else if s = "TSLA" then .ok (quantize_currency_q 700)
    else if s = "GOOGL" then .ok (quantize_currency_q 2700)
    else .error .invalidTransaction

/-- `d.get(k, dflt)` on a Python dict modelled as an association list. -/
def dict_get (d : List (String × ℤ)) (k : String) (dflt : ℤ) : ℤ :=
  match d.find? (fun p => p.1 == k) with
  | some p => p.2
  | none => dflt

/-- `d[k] = v` on a Python dict: update in place if present (keeping the key's
insertion position), else append the new key at the end. -/
def dict_set (d : List (String × ℤ)) (k : String) (v : ℤ) : List (String × ℤ) :=
  match d with
  | [] => [(k, v)]
  | (k', v') :: rest => if k' = k then (k, v) :: rest else (k', v') :: dict_set rest k v

/-- `d.pop(k, None)` on a Python dict: remove the key if present. -/
def dict_pop (d : List (String × ℤ)) (k : String) : List (String × ℤ) :=
  d.filter (fun p => p.1 ≠ k)

/-- The immutable `Transaction` record of `accounts.py`. -/
structure Transaction where
  id : String
  type : String
  amount : ℚ
  symbol : Option String
  quantity : Option ℤ
  price_per_share : Option ℚ
  total : ℚ
  timestamp : ℤ
  note : Option String
  resulting_cash_balance : ℚ
  resulting_holdings_snapshot : Option (List (String × ℤ))
deriving DecidableEq, Repr

/-- The mutable state of an `Account` (the lock is omitted: the embedding is
the sequential semantics each operation has under the lock). -/
structure Account where
  user_id : String
  currency : String
  cash : ℚ
  holdings : List (String × ℤ)
  ledger : List Transaction
  initial_deposit : ℚ
  total_deposits : ℚ
  total_withdrawals : ℚ
deriving DecidableEq, Repr

/-- `Account._record_transaction`: build the transaction (quantizing its money
fields and snapshotting the post-operation cash and holdings) and append it. -/
def record_transaction (a : Account) (ttype : String) (amount : ℚ)
    (timestamp : ℤ) (symbol : Option String) (quantity : Option ℤ)
    (price_per_share : Option ℚ) (note : Option String) : Account × Transaction :=
  let amount_q := quantize_currency_q amount
  let price_q := price_per_share.map quantize_currency_q
  let total :=
    match price_q, quantity with
    | some p, some q => quantize_currency_q (p * (q : ℚ))
    | _, _ => amount_q
  let tx : Transaction :=
    { id := toString a.ledger.length
      type := ttype
      amount := amount_q
      symbol := symbol
      quantity := quantity
      price_per_share := price_q
      total := total
      timestamp := timestamp
      note := note
      resulting_cash_balance := quantize_currency_q a.cash
      resulting_holdings_snapshot :=
        if a.holdings.isEmpty then none else some a.holdings }
  ({ a with ledger := a.ledger ++ [tx] }, tx)

/-- `Account.__init__(user_id, initial_deposit, currency, timestamp)`. -/
def Account.create (user_id : String) (initial_deposit : ℚ) (currency : String)
    (timestamp : ℤ) : Exc Account :=
  if user_id = "" then .error .invalidTransaction
  else
    let a0 : Account :=
      { user_id := user_id
        currency := currency
        cash := quantize_currency_q 0
        holdings := []
        ledger := []
        initial_deposit := quantize_currency_q initial_deposit
        total_deposits := 0
        total_withdrawals := 0 }
    if 0 < a0.initial_deposit then
      let a1 := { a0 with
        cash := quantize_currency_q a0.initial_deposit
        total_deposits := quantize_currency_q a0.initial_deposit }
      .ok (record_transaction a1 "deposit" a0.initial_deposit timestamp
            none none none (some "initial_deposit")).1
    else .ok a0

/-- `Account._validate_amount` (the `isinstance(amount, Decimal)` check is
discharged by the type). -/
def validate_amount (amount : ℚ) : Exc Unit :=
  if amount ≤ 0 then .error .invalidTransaction else .ok ()

/-- `Account._validate_quantity` (the `isinstance(quantity, int)` check is
discharged by the type). -/
def validate_quantity (quantity : ℤ) : Exc Unit :=
  if quantity ≤ 0 then .error .invalidTransaction else .ok ()

/-- `Account.deposit(amount, timestamp, note)`. -/
def Account.deposit (a : Account) (amount : ℚ) (timestamp : ℤ)
    (note : Option String) : Exc (Account × Transaction) :=
  match validate_amount amount with
  | .error e => .error e
  | .ok _ =>
    let a := { a with
      cash := quantize_currency_q (a.cash + amount)
      total_deposits := quantize_currency_q (a.total_deposits + amount) }
    .ok (record_transaction a "deposit" amount timestamp none none none note)

/-- `Account.withdraw(amount, timestamp, note)`. -/
def Account.withdraw (a : Account) (amount : ℚ) (timestamp : ℤ)
    (note : Option String) : Exc (Account × Transaction) :=
  match validate_amount amount with
  | .error e => .error e
  | .ok _ =>
    if a.cash < amount then .error .insufficientFunds
    else
      let a := { a with
        cash := quantize_currency_q (a.cash - amount)
        total_withdrawals := quantize_currency_q (a.total_withdrawals + amount) }
      .ok (record_transaction a "withdraw" amount timestamp none none none note)

/-- `Account.buy(symbol, quantity, price_lookup, timestamp, note)`.  Besides
the result, the embedding returns the list of symbols passed to the price
function, so that "no price lookup performed" is expressible. -/
def Account.buy (a : Account) (symbol : String) (quantity : ℤ)
    (price_lookup : Option PriceFn) (timestamp : ℤ) (note : Option String) :
    Exc (Account × Transaction) × List String :=
  if symbol = "" then (.error .invalidTransaction, [])
  else
    match validate_quantity quantity with
    | .error e => (.error e, [])
    | .ok _ =>
      let price_fn := price_lookup.getD get_share_price
      let symbol_norm := normalize_symbol symbol
      match price_fn symbol_norm with
      | .error e => (.error e, [symbol_norm])
      | .ok price =>
        let price_q := quantize_currency_q price
        let total_cost := quantize_currency_q (price_q * (quantity : ℚ))
        if a.cash < total_cost then (.error .insufficientFunds, [symbol_norm])
        else
          let a' := { a with
            cash := quantize_currency_q (a.cash - total_cost)
            holdings := dict_set a.holdings symbol_norm
              (dict_get a.holdings symbol_norm 0 + quantity) }
          (.ok (record_transaction a' "buy" total_cost timestamp
                (some symbol_norm) (some quantity) (some price_q) note),
           [symbol_norm])

/-- `Account.sell(symbol, quantity, price_lookup, timestamp, note)`, with the
same price-lookup trace as `Account.buy`. -/
def Account.sell (a : Account) (symbol : String) (quantity : ℤ)
    (price_lookup : Option PriceFn) (timestamp : ℤ) (note : Option String) :
    Exc (Account × Transaction) × List String :=
  if symbol = "" then (.error .invalidTransaction, [])
  else
    match validate_quantity quantity with
    | .error e => (.error e, [])
    | .ok _ =>
      let symbol_norm := normalize_symbol symbol
      let held := dict_get a.holdings symbol_norm 0
      if held < quantity then (.error .insufficientShares, [])
      else
        let price_fn := price_lookup.getD get_share_price
        match price_fn symbol_norm with
        | .error e => (.error e, [symbol_norm])
        | .ok price =>
          let price_q := quantize_currency_q price
          let total_proceeds := quantize_currency_q (price_q * (quantity : ℚ))
          let remaining := held - quantity
          let holdings' :=
            if remaining ≠ 0 then dict_set a.holdings symbol_norm remaining
            else dict_pop a.holdings symbol_norm
          let a' := { a with
            holdings := holdings'
            cash := quantize_currency_q (a.cash + total_proceeds) }
          (.ok (record_transaction a' "sell" total_proceeds timestamp
                (some symbol_norm) (some quantity) (some price_q) note),
           [symbol_norm])

/-- `Account.get_holdings` (a defensive copy in Python; the value itself here). -/
def Account.get_holdings (a : Account) : List (String × ℤ) := a.holdings

/-- `Account.get_cash_balance`. -/
def Account.get_cash_balance (a : Account) : ℚ := quantize_currency_q a.cash

/-- The `for symbol, qty in self._holdings.items()` loop of
`get_portfolio_value`, accumulating quantized per-symbol subtotals, followed by
the final quantization of the running total. -/
def portfolio_loop (price_fn : PriceFn) : List (String × ℤ) → ℚ → Exc ℚ
  | [], total => .ok (quantize_currency_q total)
  | (symbol, qty) :: rest, total =>
    match price_fn symbol with
    | .error e => .error e
    | .ok price =>
        portfolio_loop price_fn rest
          (total + quantize_currency_q (quantize_currency_q price * (qty : ℚ)))

/-- `Account.get_portfolio_value(price_lookup)`. -/
def Account.get_portfolio_value (a : Account) (price_lookup : Option PriceFn) :
    Exc ℚ :=
  portfolio_loop (price_lookup.getD get_share_price) a.holdings 0

/-- `Account.get_total_equity(price_lookup)`. -/
def Account.get_total_equity (a : Account) (price_lookup : Option PriceFn) :
    Exc ℚ :=
  match a.get_portfolio_value price_lookup with
  | .error e => .error e
  | .ok portfolio => .ok (quantize_currency_q (a.get_cash_balance + portfolio))

/-- `Account.get_profit_loss_from_initial(price_lookup)`. -/
def Account.get_profit_loss_from_initial (a : Account)
    (price_lookup : Option PriceFn) : Exc ℚ :=
  match a.get_total_equity price_lookup with
  | .error e => .error e
  | .ok equity =>
      .ok (quantize_currency_q (equity - quantize_currency_q a.initial_deposit))

/-- `Account.get_profit_loss_from_net_deposits(price_lookup)`. -/
def Account.get_profit_loss_from_net_deposits (a : Account)
    (price_lookup : Option PriceFn) : Exc ℚ :=
  match a.get_total_equity price_lookup with
  | .error e => .error e
  | .ok equity =>
      .ok (quantize_currency_q
        (equity - quantize_currency_q (a.total_deposits - a.total_withdrawals)))

/-- The ledger loop of `Account.list_transactions`: each `continue` guard
skips the entry, otherwise it is appended to the result. -/
def list_transactions_loop (start_time end_time : Option ℤ)
    (types : Option (List String)) : List Transaction → List Transaction
  | [] => []
  | tx :: rest =>
    let restR := list_transactions_loop start_time end_time types rest
    if start_time.any (fun s => decide (tx.timestamp < s)) then restR
    else if end_time.any (fun e => decide (e < tx.timestamp)) then restR
    else if types.any (fun ts => decide (tx.type ∉ ts)) then restR
    else tx :: restR

/-- `Account.list_transactions(start_time, end_time, types)`. -/
def Account.list_transactions (a : Account) (start_time end_time : Option ℤ)
    (types : Option (List String)) : List Transaction :=
  list_transactions_loop start_time end_time types a.ledger

/-- The portable record produced by `Transaction.to_dict`.  Money fields are
serialized by `str` (exact) and timestamps by `isoformat` (reversible), so the
record fields carry the exact values the serialized strings denote. -/
structure TransactionDict where
  id : String
  type : String
  amount : ℚ
  symbol : Option String
  quantity : Option ℤ
  price_per_share : Option ℚ
  total : ℚ
  timestamp : ℤ
  note : Option String
  resulting_cash_balance : ℚ
  resulting_holdings_snapshot : Option (List (String × ℤ))
deriving DecidableEq, Repr

/-- `Transaction.to_dict`. -/
def Transaction.to_dict (t : Transaction) : TransactionDict :=
  { id := t.id
    type := t.type
    amount := t.amount
    symbol := t.symbol
    quantity := t.quantity
    price_per_share := t.price_per_share
    total := t.total
    timestamp := t.timestamp
    note := t.note
    resulting_cash_balance := t.resulting_cash_balance
    resulting_holdings_snapshot := t.resulting_holdings_snapshot }

/-- `Transaction.from_dict` (`Decimal(...)` on the serialized string restores
the exact value; `fromisoformat` restores the instant). -/
def Transaction.from_dict (d : TransactionDict) : Transaction :=
  { id := d.id
    type := d.type
    amount := d.amount
    symbol := d.symbol
    quantity := d.quantity
    price_per_share := d.price_per_share
    total := d.total
    timestamp := d.timestamp
    note := d.note
    resulting_cash_balance := d.resulting_cash_balance
    resulting_holdings_snapshot := d.resulting_holdings_snapshot }

/-- The portable record produced by `Account.to_dict`. -/
structure AccountDict where
  user_id : String
  currency : String
  cash : ℚ
  holdings : List (String × ℤ)
  initial_deposit : ℚ
  total_deposits : ℚ
  total_withdrawals : ℚ
  ledger : List TransactionDict
deriving DecidableEq, Repr

/-- `Account.to_dict`. -/
def Account.to_dict (a : Account) : AccountDict :=
  { user_id := a.user_id
    currency := a.currency
    cash := a.cash
    holdings := a.holdings
    initial_deposit := a.initial_deposit
    total_deposits := a.total_deposits
    total_withdrawals := a.total_withdrawals
    ledger := a.ledger.map Transaction.to_dict }

/-- `Account.from_dict`: construct with a zero initial deposit (the
constructor's timestamp argument is unused on that path), then overwrite the
internals from the record, re-quantizing the account-level money fields. -/
def Account.from_dict (d : AccountDict) : Exc Account :=
  match Account.create d.user_id 0 d.currency 0 with
  | .error e => .error e
  | .ok acct => .ok { acct with
      cash := quantize_currency_q d.cash
      holdings := d.holdings
      initial_deposit := quantize_currency_q d.initial_deposit
      total_deposits := quantize_currency_q d.total_deposits
      total_withdrawals := quantize_currency_q d.total_withdrawals
      ledger := d.ledger.map Transaction.from_dict }

/-- The account states reachable from construction through successful
operations.  A failing operation raises before assigning any state, so it
produces no new state and the reachable set is unchanged by failures. -/
inductive Reachable : Account → Prop where
  | create (user_id : String) (initial_deposit : ℚ) (currency : String)
      (timestamp : ℤ) (a : Account) :
      Account.create user_id initial_deposit currency timestamp = .ok a →
      Reachable a
  | deposit (a : Account) (amount : ℚ) (timestamp : ℤ) (note : Option String)
      (a' : Account) (tx : Transaction) : Reachable a →
      a.deposit amount timestamp note = .ok (a', tx) → Reachable a'
  | withdraw (a : Account) (amount : ℚ) (timestamp : ℤ) (note : Option String)
      (a' : Account) (tx : Transaction) : Reachable a →
      a.withdraw amount timestamp note = .ok (a', tx) → Reachable a'
  | buy (a : Account) (symbol : String) (quantity : ℤ)
      (price_lookup : Option PriceFn) (timestamp : ℤ) (note : Option String)
      (a' : Account) (tx : Transaction) : Reachable a →
      (a.buy symbol quantity price_lookup timestamp note).1 = .ok (a', tx) →
      Reachable a'
  | sell (a : Account) (symbol : String) (quantity : ℤ)
      (price_lookup : Option PriceFn) (timestamp : ℤ) (note : Option String)
      (a' : Account) (tx : Transaction) : Reachable a →
      (a.sell symbol quantity price_lookup timestamp note).1 = .ok (a', tx) →
      Reachable a'

/-- A price capability that only ever reports nonnegative prices. -/
def NonnegPrices (price_lookup : Option PriceFn) : Prop :=
  ∀ s p, price_lookup.getD get_share_price s = .ok p → 0 ≤ p

/-- The account states reachable from construction through successful
operations whose price lookups (supplied or default) only report nonnegative
prices. -/
inductive ReachableNN : Account → Prop where
  | create (user_id : String) (initial_deposit : ℚ) (currency : String)
      (timestamp : ℤ) (a : Account) :
      Account.create user_id initial_deposit currency timestamp = .ok a →
      ReachableNN a
  | deposit (a : Account) (amount : ℚ) (timestamp : ℤ) (note : Option String)
      (a' : Account) (tx : Transaction) : ReachableNN a →
      a.deposit amount timestamp note = .ok (a', tx) → ReachableNN a'
  | withdraw (a : Account) (amount : ℚ) (timestamp : ℤ) (note : Option String)
      (a' : Account) (tx : Transaction) : ReachableNN a →
      a.withdraw amount timestamp note = .ok (a', tx) → ReachableNN a'
  | buy (a : Account) (symbol : String) (quantity : ℤ)
      (price_lookup : Option PriceFn) (timestamp : ℤ) (note : Option String)
      (a' : Account) (tx : Transaction) : ReachableNN a →
      NonnegPrices price_lookup →
      (a.buy symbol quantity price_lookup timestamp note).1 = .ok (a', tx) →
      ReachableNN a'
  | sell (a : Account) (symbol : String) (quantity : ℤ)
      (price_lookup : Option PriceFn) (timestamp : ℤ) (note : Option String)
      (a' : Account) (tx : Transaction) : ReachableNN a →
      NonnegPrices price_lookup →
      (a.sell symbol quantity price_lookup timestamp note).1 = .ok (a', tx) →
      ReachableNN a'

/-- The solvency invariant claimed by the spec: nonnegative cash and strictly
positive quantity for every entry of the holdings mapping. -/
def Solvent (a : Account) : Prop :=
  0 ≤ a.cash ∧ ∀ p ∈ a.holdings, 0 < p.2

/-! ## Arithmetic facts about half-up quantization -/

theorem roundHalfUp_intCast (n : ℤ) : roundHalfUp (n : ℚ) = n := by
  unfold roundHalfUp
  split
  · rw [Int.floor_int_add]
    norm_num
  · have h : (-(n : ℚ) + 1 / 2) = ((-n : ℤ) : ℚ) + 1 / 2 := by push_cast; ring
    rw [h, Int.floor_int_add]
    norm_num

theorem isMoney_quantize (q : ℚ) : IsMoney (quantize_currency_q q) :=
  ⟨roundHalfUp (q * 100), rfl⟩

theorem quantize_eq_of_isMoney {q : ℚ} (h : IsMoney q) :
    quantize_currency_q q = q := by
  obtain ⟨n, rfl⟩ := h
  unfold quantize_currency_q
  rw [div_mul_cancel₀ (n : ℚ) (by norm_num : (100 : ℚ) ≠ 0), roundHalfUp_intCast]

theorem quantize_idem (q : ℚ) :
    quantize_currency_q (quantize_currency_q q) = quantize_currency_q q :=
  quantize_eq_of_isMoney (isMoney_quantize q)

theorem IsMoney.zero : IsMoney 0 := ⟨0, by norm_num⟩

theorem IsMoney.add {a b : ℚ} (ha : IsMoney a) (hb : IsMoney b) :
    IsMoney (a + b) := by
  obtain ⟨m, rfl⟩ := ha
  obtain ⟨n, rfl⟩ := hb
  exact ⟨m + n, by push_cast; ring⟩

theorem IsMoney.sub {a b : ℚ} (ha : IsMoney a) (hb : IsMoney b) :
    IsMoney (a - b) := by
  obtain ⟨m, rfl⟩ := ha
  obtain ⟨n, rfl⟩ := hb
  exact ⟨m - n, by push_cast; ring⟩

theorem IsMoney.mul_intCast {a : ℚ} (ha : IsMoney a) (k : ℤ) :
    IsMoney (a * (k : ℚ)) := by
  obtain ⟨m, rfl⟩ := ha
  exact ⟨m * k, by push_cast; ring⟩

theorem roundHalfUp_nonneg {x : ℚ} (h : 0 ≤ x) : 0 ≤ roundHalfUp x := by
  unfold roundHalfUp
  rw [if_pos h]
  exact Int.floor_nonneg.mpr (by linarith)

theorem quantize_nonneg {q : ℚ} (h : 0 ≤ q) : 0 ≤ quantize_currency_q q := by
  unfold quantize_currency_q
  have := roundHalfUp_nonneg (by positivity : (0 : ℚ) ≤ q * 100)
  positivity

theorem roundHalfUp_near {x : ℚ} : |(roundHalfUp x : ℚ) - x| ≤ 1 / 2 := by
  unfold roundHalfUp
  split
  · rw [abs_le]
    constructor
    · have := Int.lt_floor_add_one (x + 1 / 2)
      push_cast at this ⊢
      linarith
    · have := Int.floor_le (x + 1 / 2)
      push_cast at this ⊢
      linarith
  · rw [abs_le]
    constructor
    · have := Int.floor_le (-x + 1 / 2)
      push_cast at this ⊢
      linarith
    · have := Int.lt_floor_add_one (-x + 1 / 2)
      push_cast at this ⊢
      linarith

theorem roundHalfUp_tie_away {x : ℚ} (h : |(roundHalfUp x : ℚ) - x| = 1 / 2) :
    |x| ≤ |(roundHalfUp x : ℚ)| := by
  unfold roundHalfUp at h ⊢
  split at h <;> rename_i hx
  · rw [if_pos hx]
    have hle := Int.floor_le (x + 1 / 2)
    have hlt := Int.lt_floor_add_one (x + 1 / 2)
    have hup : (⌊x + 1 / 2⌋ : ℚ) = x + 1 / 2 := by
      rcases (abs_eq (by norm_num : (0:ℚ) ≤ 1/2)).mp h with h' | h' <;> linarith
    rw [abs_of_nonneg hx, hup, abs_of_nonneg (by linarith)]
    linarith
  · rw [if_neg hx]
    push_neg at hx
    have hle := Int.floor_le (-x + 1 / 2)
    have hlt := Int.lt_floor_add_one (-x + 1 / 2)
    push_cast at h
    have hup : (⌊-x + 1 / 2⌋ : ℚ) = -x + 1 / 2 := by
      rcases (abs_eq (by norm_num : (0:ℚ) ≤ 1/2)).mp h with h' | h' <;> linarith
    push_cast
    rw [abs_of_neg hx, hup, abs_of_nonpos (by linarith : -(-x + 1/2) ≤ (0:ℚ))]
    linarith

/-! ## Facts about the association-list model of Python dicts -/

theorem dict_get_nonneg_of_pos {d : List (String × ℤ)} {k : String}
    (h : ∀ p ∈ d, 0 < p.2) : 0 ≤ dict_get d k 0 := by
  unfold dict_get
  cases hf : d.find? (fun p => p.1 == k) with
  | none => exact le_refl 0
  | some p => exact le_of_lt (h p (List.mem_of_find?_eq_some hf))

theorem dict_set_pos {d : List (String × ℤ)} {k : String} {v : ℤ}
    (h : ∀ p ∈ d, 0 < p.2) (hv : 0 < v) : ∀ p ∈ dict_set d k v, 0 < p.2 := by
  induction d with
  | nil =>
    intro p hp
    simp only [dict_set, List.mem_singleton] at hp
    subst hp
    exact hv
  | cons hd tl ih =>
    intro p hp
    obtain ⟨k', v'⟩ := hd
    simp only [dict_set] at hp
    split at hp
    · rcases List.mem_cons.mp hp with h1 | h1
      · subst h1; exact hv
      · exact h p (List.mem_cons_of_mem _ h1)
    · rcases List.mem_cons.mp hp with h1 | h1
      · subst h1; exact h (k', v') (List.mem_cons_self _ _)
      · exact ih (fun q hq => h q (List.mem_cons_of_mem _ hq)) p h1

theorem dict_pop_pos {d : List (String × ℤ)} {k : String}
    (h : ∀ p ∈ d, 0 < p.2) : ∀ p ∈ dict_pop d k, 0 < p.2 := by
  intro p hp
  exact h p (List.mem_of_mem_filter hp)

theorem dict_pop_find?_eq_none (d : List (String × ℤ)) (k : String) :
    (dict_pop d k).find? (fun p => p.1 == k) = none := by
  rw [List.find?_eq_none]
  intro p hp
  have := List.of_mem_filter hp
  simp only [decide_not, Bool.not_eq_true', decide_eq_false_iff_not] at this
  simp [this]

/-! ## Inversion principles for the account operations -/

theorem record_transaction_snd (a : Account) (ttype : String) (amount : ℚ)
    (timestamp : ℤ) (symbol : Option String) (quantity : Option ℤ)
    (price_per_share : Option ℚ) (note : Option String) :
    (record_transaction a ttype amount timestamp symbol quantity price_per_share note).2 =
      { id := toString a.ledger.length
        type := ttype
        amount := quantize_currency_q amount
        symbol := symbol
        quantity := quantity
        price_per_share := price_per_share.map quantize_currency_q
        total :=
          match price_per_share.map quantize_currency_q, quantity with
          | some p, some q => quantize_currency_q (p * (q : ℚ))
          | _, _ => quantize_currency_q amount
        timestamp := timestamp
        note := note
        resulting_cash_balance := quantize_currency_q a.cash
        resulting_holdings_snapshot :=
          if a.holdings.isEmpty then none else some a.holdings } := rfl

theorem record_transaction_fst (a : Account) (ttype : String) (amount : ℚ)
    (timestamp : ℤ) (symbol : Option String) (quantity : Option ℤ)
    (price_per_share : Option ℚ) (note : Option String) :
    (record_transaction a ttype amount timestamp symbol quantity price_per_share note).1 =
      { a with ledger := a.ledger ++
          [(record_transaction a ttype amount timestamp symbol quantity
              price_per_share note).2] } := rfl

theorem deposit_ok_iff {a : Account} {amt : ℚ} {ts : ℤ} {note : Option String}
    {a' : Account} {tx : Transaction} :
    a.deposit amt ts note = .ok (a', tx) ↔
      0 < amt ∧
      (a', tx) = record_transaction
        { a with cash := quantize_currency_q (a.cash + amt)
                 total_deposits := quantize_currency_q (a.total_deposits + amt) }
        "deposit" amt ts none none none note := by
  unfold Account.deposit validate_amount
  by_cases h : amt ≤ 0
  · simp [h, not_lt.mpr h]
  · simp [h, not_le.mp h, eq_comm]

theorem withdraw_ok_iff {a : Account} {amt : ℚ} {ts : ℤ} {note : Option String}
    {a' : Account} {tx : Transaction} :
    a.withdraw amt ts note = .ok (a', tx) ↔
      0 < amt ∧ ¬ a.cash < amt ∧
      (a', tx) = record_transaction
        { a with cash := quantize_currency_q (a.cash - amt)
                 total_withdrawals := quantize_currency_q (a.total_withdrawals + amt) }
        "withdraw" amt ts none none none note := by
  unfold Account.withdraw validate_amount
  by_cases h : amt ≤ 0
  · simp [h, not_lt.mpr h]
  · by_cases hc : a.cash < amt
    · simp [h, hc]
    · simp [h, hc, not_le.mp h, eq_comm]

theorem withdraw_insufficient {a : Account} {amt : ℚ} {ts : ℤ}
    {note : Option String} (hpos : 0 < amt) (hc : a.cash < amt) :
    a.withdraw amt ts note = .error .insufficientFunds := by
  unfold Account.withdraw validate_amount
  simp [not_le.mpr hpos, hc]

theorem buy_ok_iff {a : Account} {s : String} {q : ℤ} {pl : Option PriceFn}
    {ts : ℤ} {note : Option String} {a' : Account} {tx : Transaction} :
    (a.buy s q pl ts note).1 = .ok (a', tx) ↔
      s ≠ "" ∧ 0 < q ∧ ∃ price,
        (pl.getD get_share_price) (normalize_symbol s) = .ok price ∧
        ¬ a.cash < quantize_currency_q (quantize_currency_q price * (q : ℚ)) ∧
        (a', tx) = record_transaction
          { a with
            cash := quantize_currency_q
              (a.cash - quantize_currency_q (quantize_currency_q price * (q : ℚ)))
            holdings := dict_set a.holdings (normalize_symbol s)
              (dict_get a.holdings (normalize_symbol s) 0 + q) }
          "buy" (quantize_currency_q (quantize_currency_q price * (q : ℚ))) ts
          (some (normalize_symbol s)) (some q) (some (quantize_currency_q price))
          note := by
  unfold Account.buy validate_quantity
  by_cases hs : s = ""
  · simp [hs]
  · by_cases hq : q ≤ 0
    · simp [hs, hq, not_lt.mpr hq]
    · cases hp : (pl.getD get_share_price) (normalize_symbol s) with
      | error e => simp [hs, hq, hp, not_le.mp hq]
      | ok price =>
        by_cases hc :
            a.cash < quantize_currency_q (quantize_currency_q price * (q : ℚ))
        · simp [hs, hq, hp, hc, not_le.mp hq]
        · simp [hs, hq, hp, hc, not_le.mp hq, eq_comm, not_lt.mp hc]

theorem sell_ok_iff {a : Account} {s : String} {q : ℤ} {pl : Option PriceFn}
    {ts : ℤ} {note : Option String} {a' : Account} {tx : Transaction} :
    (a.sell s q pl ts note).1 = .ok (a', tx) ↔
      s ≠ "" ∧ 0 < q ∧ ¬ dict_get a.holdings (normalize_symbol s) 0 < q ∧ ∃ price,
        (pl.getD get_share_price) (normalize_symbol s) = .ok price ∧
        (a', tx) = record_transaction
          { a with
            holdings :=
              (if dict_get a.holdings (normalize_symbol s) 0 - q ≠ 0 then
                dict_set a.holdings (normalize_symbol s)
                  (dict_get a.holdings (normalize_symbol s) 0 - q)
              else dict_pop a.holdings (normalize_symbol s))
            cash := quantize_currency_q
              (a.cash + quantize_currency_q (quantize_currency_q price * (q : ℚ))) }
          "sell" (quantize_currency_q (quantize_currency_q price * (q : ℚ))) ts
          (some (normalize_symbol s)) (some q) (some (quantize_currency_q price))
          note := by
  unfold Account.sell validate_quantity
  by_cases hs : s = ""
  · simp [hs]
  · by_cases hq : q ≤ 0
    · simp [hs, hq, not_lt.mpr hq]
    · by_cases hheld : dict_get a.holdings (normalize_symbol s) 0 < q
      · simp [hs, hq, hheld, not_le.mp hq]
      · cases hp : (pl.getD get_share_price) (normalize_symbol s) with
        | error e => simp [hs, hq, hheld, hp, not_le.mp hq]
        | ok price => simp [hs, hq, hheld, hp, not_le.mp hq, eq_comm]

theorem quantize_zero : quantize_currency_q 0 = 0 :=
  quantize_eq_of_isMoney IsMoney.zero

theorem create_ok_iff {uid : String} {dep : ℚ} {cur : String} {ts : ℤ}
    {a : Account} :
    Account.create uid dep cur ts = .ok a ↔
      uid ≠ "" ∧
      ((0 < quantize_currency_q dep ∧
        a = (record_transaction
              { user_id := uid
                currency := cur
                cash := quantize_currency_q (quantize_currency_q dep)
                holdings := []
                ledger := []
                initial_deposit := quantize_currency_q dep
                total_deposits := quantize_currency_q (quantize_currency_q dep)
                total_withdrawals := 0 }
              "deposit" (quantize_currency_q dep) ts none none none
              (some "initial_deposit")).1) ∨
       (¬ 0 < quantize_currency_q dep ∧
        a = { user_id := uid
              currency := cur
              cash := quantize_currency_q 0
              holdings := []
              ledger := []
              initial_deposit := quantize_currency_q dep
              total_deposits := 0
              total_withdrawals := 0 })) := by
  unfold Account.create
  by_cases hu : uid = ""
  · simp [hu]
  · by_cases hd : 0 < quantize_currency_q dep
    · simp [hu, hd, eq_comm]
    · simp [hu, hd, eq_comm]

theorem solvent_create {uid : String} {dep : ℚ} {cur : String} {ts : ℤ}
    {a : Account} (h : Account.create uid dep cur ts = .ok a) : Solvent a := by
  rcases create_ok_iff.mp h with ⟨-, ⟨hpos, rfl⟩ | ⟨-, rfl⟩⟩
  · refine ⟨?_, ?_⟩
    · simp only [record_transaction_fst]
      show (0 : ℚ) ≤ quantize_currency_q (quantize_currency_q dep)
      rw [quantize_idem]
      exact le_of_lt hpos
    · intro p hp
      simp only [record_transaction_fst] at hp
      simp at hp
  · exact ⟨by simp [quantize_zero], by simp⟩

theorem solvent_deposit {a : Account} {amt : ℚ} {ts : ℤ} {note : Option String}
    {a' : Account} {tx : Transaction} (hs : Solvent a)
    (h : a.deposit amt ts note = .ok (a', tx)) : Solvent a' := by
  obtain ⟨hpos, heq⟩ := deposit_ok_iff.mp h
  have ha' : a' = _ := congrArg Prod.fst heq
  subst ha'
  refine ⟨?_, ?_⟩
  · simp only [record_transaction_fst]
    show (0 : ℚ) ≤ quantize_currency_q (a.cash + amt)
    exact quantize_nonneg (by linarith [hs.1])
  · intro p hp
    simp only [record_transaction_fst] at hp
    exact hs.2 p hp

theorem solvent_withdraw {a : Account} {amt : ℚ} {ts : ℤ} {note : Option String}
    {a' : Account} {tx : Transaction} (hs : Solvent a)
    (h : a.withdraw amt ts note = .ok (a', tx)) : Solvent a' := by
  obtain ⟨hpos, hc, heq⟩ := withdraw_ok_iff.mp h
  have ha' : a' = _ := congrArg Prod.fst heq
  subst ha'
  rw [not_lt] at hc
  refine ⟨?_, ?_⟩
  · simp only [record_transaction_fst]
    show (0 : ℚ) ≤ quantize_currency_q (a.cash - amt)
    exact quantize_nonneg (by linarith)
  · intro p hp
    simp only [record_transaction_fst] at hp
    exact hs.2 p hp

theorem solvent_buy {a : Account} {s : String} {q : ℤ} {pl : Option PriceFn}
    {ts : ℤ} {note : Option String} {a' : Account} {tx : Transaction}
    (hs : Solvent a) (h : (a.buy s q pl ts note).1 = .ok (a', tx)) :
    Solvent a' := by
  obtain ⟨-, hq, price, -, hc, heq⟩ := buy_ok_iff.mp h
  have ha' : a' = _ := congrArg Prod.fst heq
  subst ha'
  rw [not_lt] at hc
  refine ⟨?_, ?_⟩
  · simp only [record_transaction_fst]
    show (0 : ℚ) ≤ quantize_currency_q
      (a.cash - quantize_currency_q (quantize_currency_q price * (q : ℚ)))
    exact quantize_nonneg (by linarith)
  · intro p hp
    simp only [record_transaction_fst] at hp
    exact dict_set_pos hs.2
      (by linarith [dict_get_nonneg_of_pos (k := normalize_symbol s) hs.2]) p hp

theorem solvent_sell {a : Account} {s : String} {q : ℤ} {pl : Option PriceFn}
    {ts : ℤ} {note : Option String} {a' : Account} {tx : Transaction}
    (hs : Solvent a) (hnn : NonnegPrices pl)
    (h : (a.sell s q pl ts note).1 = .ok (a', tx)) : Solvent a' := by
  obtain ⟨-, hq, hheld, price, hp, heq⟩ := sell_ok_iff.mp h
  have ha' : a' = _ := congrArg Prod.fst heq
  subst ha'
  rw [not_lt] at hheld
  have hprice : 0 ≤ price := hnn _ _ hp
  have hproceeds : 0 ≤ quantize_currency_q (quantize_currency_q price * (q : ℚ)) :=
    quantize_nonneg (mul_nonneg (quantize_nonneg hprice) (by positivity))
  refine ⟨?_, ?_⟩
  · simp only [record_transaction_fst]
    show (0 : ℚ) ≤ quantize_currency_q
      (a.cash + quantize_currency_q (quantize_currency_q price * (q : ℚ)))
    exact quantize_nonneg (by linarith [hs.1])
  · intro p hp'
    simp only [record_transaction_fst] at hp'
    revert hp'
    show p ∈ (if dict_get a.holdings (normalize_symbol s) 0 - q ≠ 0 then _ else _) → _
    split
    · rename_i hrem
      intro hp'
      exact dict_set_pos hs.2 (by omega) p hp'
    · intro hp'
      exact dict_pop_pos hs.2 p hp'

/-! ## Concrete fixtures used by witnesses and counterexamples -/

/-- A freshly constructed account with no initial deposit. -/
def acct_zero : Account :=
  { user_id := "u"
    currency := "USD"
    cash := 0
    holdings := []
    ledger := []
    initial_deposit := 0
    total_deposits := 0
    total_withdrawals := 0 }

/-- A price capability that reports price 0 for every symbol. -/
def price_zero : PriceFn := fun _ => .ok 0

/-- A price capability that reports price −5 for every symbol. -/
def price_negfive : PriceFn := fun _ => .ok (-5)

/-- The transaction recorded by buying 1 AAPL at price 0 on `acct_zero`. -/
def tx_buy_zero : Transaction :=
  { id := "0"
    type := "buy"
    amount := 0
    symbol := some "AAPL"
    quantity := some 1
    price_per_share := some 0
    total := 0
    timestamp := 0
    note := none
    resulting_cash_balance := 0
    resulting_holdings_snapshot := some [("AAPL", 1)] }

/-- `acct_zero` after buying 1 AAPL at price 0. -/
def acct_hold : Account :=
  { user_id := "u"
    currency := "USD"
    cash := 0
    holdings := [("AAPL", 1)]
    ledger := [tx_buy_zero]
    initial_deposit := 0
    total_deposits := 0
    total_withdrawals := 0 }

/-- The transaction recorded by selling the 1 AAPL at price −5. -/
def tx_sell_neg : Transaction :=
  { id := "1"
    type := "sell"
    amount := -5
    symbol := some "AAPL"
    quantity := some 1
    price_per_share := some (-5)
    total := -5
    timestamp := 0
    note := none
    resulting_cash_balance := -5
    resulting_holdings_snapshot := none }

/-- `acct_hold` after selling its 1 AAPL at price −5: the cash is negative. -/
def acct_neg : Account :=
  { user_id := "u"
    currency := "USD"
    cash := -5
    holdings := []
    ledger := [tx_buy_zero, tx_sell_neg]
    initial_deposit := 0
    total_deposits := 0
    total_withdrawals := 0 }

theorem create_acct_zero : Account.create "u" 0 "USD" 0 = .ok acct_zero := by
  rw [create_ok_iff]
  refine ⟨by decide, Or.inr ⟨?_, ?_⟩⟩
  · rw [quantize_zero]; norm_num
  · simp [acct_zero, quantize_zero]

theorem buy_acct_zero :
    (acct_zero.buy "AAPL" 1 (some price_zero) 0 none).1 =
      .ok (acct_hold, tx_buy_zero) := by
  rw [buy_ok_iff]
  refine ⟨by decide, by norm_num, 0, rfl, ?_, ?_⟩
  · simp [acct_zero, quantize_zero]
  · have hns : normalize_symbol "AAPL" = "AAPL" := by decide
    have h0s : toString (0 : ℕ) = "0" := rfl
    simp [record_transaction, acct_zero, acct_hold, tx_buy_zero, hns, h0s,
      quantize_zero, dict_set, dict_get]

theorem sell_acct_hold :
    (acct_hold.sell "AAPL" 1 (some price_negfive) 0 none).1 =
      .ok (acct_neg, tx_sell_neg) := by
  rw [sell_ok_iff]
  have hns : normalize_symbol "AAPL" = "AAPL" := by decide
  have hq5 : quantize_currency_q (-5) = -5 :=
    quantize_eq_of_isMoney ⟨-500, by norm_num⟩
  refine ⟨by decide, by norm_num, ?_, -5, rfl, ?_⟩
  · simp [acct_hold, hns, dict_get]
  · have h1s : toString (1 : ℕ) = "1" := rfl
    simp [record_transaction, acct_hold, acct_neg, tx_sell_neg, hns, hq5, h1s,
      quantize_zero, dict_get, dict_pop]

/-! ## C1: the solvency invariant -/

/-- **C1, counterexample to the claim as stated**: with an adversarial price
capability (a buy at price 0 followed by a sell at price −5, both accepted by
the engine) an account with negative cash is reachable from construction, so
the invariant does not hold over all reachable states. -/
theorem c1_counterexample : ¬ (∀ a : Account, Reachable a → Solvent a) := by
  intro hinv
  have hreach : Reachable acct_neg :=
    Reachable.sell acct_hold "AAPL" 1 (some price_negfive) 0 none acct_neg
      tx_sell_neg
      (Reachable.buy acct_zero "AAPL" 1 (some price_zero) 0 none acct_hold
        tx_buy_zero
        (Reachable.create "u" 0 "USD" 0 acct_zero create_acct_zero)
        buy_acct_zero)
      sell_acct_hold
  have h := (hinv acct_neg hreach).1
  norm_num [acct_neg] at h

/-- **C1** (amended: restricted to runs whose price lookups only report
nonnegative prices — the code accepts negative prices from the pluggable
capability, and a negative-price sell can drive cash below zero):
for every account state reachable from construction by any sequence of
successful or failing deposit, withdraw, buy and sell operations whose price
lookups return only nonnegative prices, the cash balance is ≥ 0 and every
symbol present in the holdings mapping has a strictly positive quantity
(failing operations raise before mutating, so they contribute no new states);
moreover, when a sell brings a symbol's quantity to exactly zero, the symbol
is removed from the mapping rather than stored with quantity zero. -/
theorem c1_solvency_invariant :
    (∀ a : Account, ReachableNN a → Solvent a) ∧
    (∀ (a : Account) (s : String) (q : ℤ) (pl : Option PriceFn) (ts : ℤ)
        (note : Option String) (a' : Account) (tx : Transaction),
      (a.sell s q pl ts note).1 = .ok (a', tx) →
      dict_get a.holdings (normalize_symbol s) 0 = q →
      a'.holdings.find? (fun p => p.1 == normalize_symbol s) = none) := by
  constructor
  · intro a h
    induction h with
    | create uid dep cur ts a h => exact solvent_create h
    | deposit a amt ts note a' tx hr h ih => exact solvent_deposit ih h
    | withdraw a amt ts note a' tx hr h ih => exact solvent_withdraw ih h
    | buy a s q pl ts note a' tx hr hnn h ih => exact solvent_buy ih h
    | sell a s q pl ts note a' tx hr hnn h ih => exact solvent_sell ih hnn h
  · intro a s q pl ts note a' tx h hheld
    obtain ⟨-, -, -, price, -, heq⟩ := sell_ok_iff.mp h
    have ha' : a' = _ := congrArg Prod.fst heq
    subst ha'
    simp only [record_transaction_fst]
    show ((if dict_get a.holdings (normalize_symbol s) 0 - q ≠ 0 then
            dict_set a.holdings (normalize_symbol s)
              (dict_get a.holdings (normalize_symbol s) 0 - q)
          else dict_pop a.holdings (normalize_symbol s)).find?
            (fun p => p.1 == normalize_symbol s)) = none
    rw [hheld]
    simp [dict_pop_find?_eq_none]

/-- Witness for C1: the amended invariant applied to a concrete reachable
account, and the removal property applied to a concrete sell that empties the
position. -/
theorem c1_solvency_invariant_witness :
    Solvent acct_hold ∧
      acct_neg.holdings.find? (fun p => p.1 == normalize_symbol "AAPL") =
        none := by
  constructor
  · refine c1_solvency_invariant.1 acct_hold ?_
    refine ReachableNN.buy acct_zero "AAPL" 1 (some price_zero) 0 none
      acct_hold tx_buy_zero
      (ReachableNN.create "u" 0 "USD" 0 acct_zero create_acct_zero)
      ?_ buy_acct_zero
    intro s p hp
    simp only [Option.getD, price_zero] at hp
    cases hp
    norm_num
  · refine c1_solvency_invariant.2 acct_hold "AAPL" 1 (some price_negfive) 0
      none acct_neg tx_sell_neg sell_acct_hold ?_
    decide

/-! ## C2: withdraw fails atomically and succeeds exactly -/

/-- An account holding 100.00 in cash and nothing else. -/
def acct_hundred : Account :=
  { user_id := "u"
    currency := "USD"
    cash := 100
    holdings := []
    ledger := []
    initial_deposit := 100
    total_deposits := 100
    total_withdrawals := 0 }

/-- **C2**: for every account and Money amount a > 0, `withdraw(a)` fails with
`InsufficientFunds` when `cash < a` — and an error raises before any
assignment, so cash, total_withdrawals, holdings and the ledger are unchanged
(the `.error` result carries no mutated account) — and when `cash ≥ a` it
decreases cash by exactly a, increases total_withdrawals by exactly a, and
appends exactly one transaction of type "withdraw", which it returns. -/
theorem c2_withdraw_atomicity {a : Account} {amt : ℚ} {ts : ℤ}
    {note : Option String}
    (hpos : 0 < amt) (hm : IsMoney amt) (hmc : IsMoney a.cash)
    (hmw : IsMoney a.total_withdrawals) :
    (a.cash < amt → a.withdraw amt ts note = .error .insufficientFunds) ∧
    (amt ≤ a.cash → ∃ tx : Transaction,
      a.withdraw amt ts note =
        .ok ({ a with
                cash := a.cash - amt
                total_withdrawals := a.total_withdrawals + amt
                ledger := a.ledger ++ [tx] }, tx) ∧
      tx.type = "withdraw" ∧ tx.amount = amt) := by
  have hsub : quantize_currency_q (a.cash - amt) = a.cash - amt :=
    quantize_eq_of_isMoney (hmc.sub hm)
  have hadd : quantize_currency_q (a.total_withdrawals + amt) =
      a.total_withdrawals + amt := quantize_eq_of_isMoney (hmw.add hm)
  constructor
  · intro hlt
    exact withdraw_insufficient hpos hlt
  · intro hle
    refine ⟨(record_transaction
        { a with
          cash := a.cash - amt
          total_withdrawals := a.total_withdrawals + amt }
        "withdraw" amt ts none none none note).2, ?_, rfl, ?_⟩
    · rw [withdraw_ok_iff]
      refine ⟨hpos, not_lt.mpr hle, ?_⟩
      rw [hsub, hadd]
      rfl
    · simp only [record_transaction_snd]
      exact quantize_eq_of_isMoney hm

/-- Witness for C2: withdrawing 150.00 from an account holding 100.00 fails
with `InsufficientFunds`. -/
theorem c2_withdraw_atomicity_witness :
    acct_hundred.withdraw 150 0 none = .error .insufficientFunds := by
  have h := @c2_withdraw_atomicity acct_hundred 150 0 none
    (by norm_num) ⟨15000, by norm_num⟩
    ⟨10000, by norm_num [acct_hundred]⟩ ⟨0, by norm_num [acct_hundred]⟩
  exact h.1 (by norm_num [acct_hundred])

/-! ## C3: sell fails fast on insufficient shares, before any price lookup -/

/-- **C3**: if the held quantity of the normalized symbol is less than the
(valid) requested quantity, `sell` fails with `InsufficientShares` — raising
before any assignment, so cash, holdings and the ledger are unchanged — and
the price-lookup trace is empty: neither the supplied override nor the
default oracle is invoked. -/
theorem c3_sell_insufficient_shares {a : Account} {s : String} {q : ℤ}
    {pl : Option PriceFn} {ts : ℤ} {note : Option String}
    (hs : s ≠ "") (hq : 0 < q)
    (hheld : dict_get a.holdings (normalize_symbol s) 0 < q) :
    a.sell s q pl ts note = (.error .insufficientShares, []) := by
  unfold Account.sell validate_quantity
  simp [hs, not_le.mpr hq, hheld]

/-- Witness for C3: selling 1 AAPL from an account with no holdings fails
with `InsufficientShares` and performs no price lookup. -/
theorem c3_sell_insufficient_shares_witness :
    acct_zero.sell "AAPL" 1 none 0 none = (.error .insufficientShares, []) :=
  c3_sell_insufficient_shares (by decide) (by norm_num)
    (by simp [acct_zero, dict_get])

/-! ## C4: buy computes the quantized total cost and mutates exactly -/

theorem buy_insufficient {a : Account} {s : String} {q : ℤ}
    {pl : Option PriceFn} {ts : ℤ} {note : Option String} {price : ℚ}
    (hs : s ≠ "") (hq : 0 < q)
    (hp : (pl.getD get_share_price) (normalize_symbol s) = .ok price)
    (hc : a.cash < quantize_currency_q (quantize_currency_q price * (q : ℚ))) :
    (a.buy s q pl ts note).1 = .error .insufficientFunds := by
  unfold Account.buy validate_quantity
  simp [hs, not_le.mpr hq, hp, hc]

/-- **C4**: for every account, non-empty symbol, quantity q > 0 and price
lookup that returns the Money price p for the normalized symbol, `buy`
computes `total_cost = quantize(p × q)`; if `cash < total_cost` it fails with
`InsufficientFunds` — raising before any assignment, so no mutation occurs —
and otherwise it decreases cash by total_cost, increases the normalized
symbol's holding by q (inserting the key if absent), and appends one
transaction of type "buy" whose amount and total both equal total_cost and
whose price_per_share is the quantized price. -/
theorem c4_buy_mutation {a : Account} {s : String} {q : ℤ}
    {pl : Option PriceFn} {ts : ℤ} {note : Option String} {p : ℚ}
    (hs : s ≠ "") (hq : 0 < q)
    (hp : (pl.getD get_share_price) (normalize_symbol s) = .ok p)
    (hmp : IsMoney p) (hmc : IsMoney a.cash) :
    (a.cash < quantize_currency_q (p * (q : ℚ)) →
      (a.buy s q pl ts note).1 = .error .insufficientFunds) ∧
    (quantize_currency_q (p * (q : ℚ)) ≤ a.cash → ∃ tx : Transaction,
      (a.buy s q pl ts note).1 =
        .ok ({ a with
                cash := a.cash - quantize_currency_q (p * (q : ℚ))
                holdings := dict_set a.holdings (normalize_symbol s)
                  (dict_get a.holdings (normalize_symbol s) 0 + q)
                ledger := a.ledger ++ [tx] }, tx) ∧
      tx.type = "buy" ∧
      tx.amount = quantize_currency_q (p * (q : ℚ)) ∧
      tx.total = quantize_currency_q (p * (q : ℚ)) ∧
      tx.price_per_share = some (quantize_currency_q p)) := by
  have hpq : quantize_currency_q p = p := quantize_eq_of_isMoney hmp
  have hcost : quantize_currency_q (quantize_currency_q p * (q : ℚ)) =
      quantize_currency_q (p * (q : ℚ)) := by rw [hpq]
  have hcash : quantize_currency_q
      (a.cash - quantize_currency_q (p * (q : ℚ))) =
      a.cash - quantize_currency_q (p * (q : ℚ)) :=
    quantize_eq_of_isMoney (hmc.sub (isMoney_quantize _))
  constructor
  · intro hlt
    exact buy_insufficient hs hq hp (by rw [hcost]; exact hlt)
  · intro hle
    refine ⟨(record_transaction
        { a with
          cash := a.cash - quantize_currency_q (p * (q : ℚ))
          holdings := dict_set a.holdings (normalize_symbol s)
            (dict_get a.holdings (normalize_symbol s) 0 + q) }
        "buy" (quantize_currency_q (p * (q : ℚ))) ts
        (some (normalize_symbol s)) (some q)
        (some (quantize_currency_q p)) note).2, ?_, rfl, ?_, ?_, ?_⟩
    · rw [buy_ok_iff]
      refine ⟨hs, hq, p, hp, by rw [hcost]; exact not_lt.mpr hle, ?_⟩
      rw [hcost, hcash]
      rfl
    · simp only [record_transaction_snd]
      exact quantize_idem _
    · simp only [record_transaction_snd, Option.map_some']
      rw [hpq]
      exact hcost
    · simp only [record_transaction_snd, Option.map_some']
      rw [quantize_idem]

/-- Witness for C4: buying 2 AAPL at the default price 150.00 from an account
holding 100.00 fails with `InsufficientFunds`. -/
theorem c4_buy_mutation_witness :
    (acct_hundred.buy "AAPL" 2 none 0 none).1 = .error .insufficientFunds := by
  have hns : normalize_symbol "AAPL" = "AAPL" := by decide
  have h150 : quantize_currency_q 150 = 150 :=
    quantize_eq_of_isMoney ⟨15000, by norm_num⟩
  have hp : (Option.getD (none : Option PriceFn) get_share_price)
      (normalize_symbol "AAPL") = .ok 150 := by
    rw [hns]
    unfold get_share_price
    simp [hns, h150]
  have h := @c4_buy_mutation acct_hundred "AAPL" 2 none 0 none 150
    (by decide) (by norm_num) hp ⟨15000, by norm_num⟩
    ⟨10000, by norm_num [acct_hundred]⟩
  refine h.1 ?_
  have h300 : quantize_currency_q (150 * ((2 : ℤ) : ℚ)) = 300 := by
    norm_num
    exact quantize_eq_of_isMoney ⟨30000, by norm_num⟩
  rw [h300]
  norm_num [acct_hundred]

/-! ## C5: the recorded snapshots match the post-operation state -/

theorem record_snapshot_fields (A : Account) (ttype : String) (amount : ℚ)
    (ts : ℤ) (symbol : Option String) (quantity : Option ℤ)
    (pps : Option ℚ) (note : Option String)
    (hA : quantize_currency_q A.cash = A.cash) :
    ((record_transaction A ttype amount ts symbol quantity pps note).2).resulting_cash_balance =
      ((record_transaction A ttype amount ts symbol quantity pps note).1).cash ∧
    ((record_transaction A ttype amount ts symbol quantity pps note).2).resulting_holdings_snapshot =
      (if ((record_transaction A ttype amount ts symbol quantity pps note).1).holdings.isEmpty
       then none
       else some ((record_transaction A ttype amount ts symbol quantity pps note).1).holdings) ∧
    ((record_transaction A ttype amount ts symbol quantity pps note).1).ledger =
      A.ledger ++ [(record_transaction A ttype amount ts symbol quantity pps note).2] :=
  ⟨hA, rfl, rfl⟩

/-- **C5**: every transaction appended by construction, deposit, withdraw,
buy or sell snapshots the state at its commit instant: its
`resulting_cash_balance` equals the account's cash immediately after the
operation, its `resulting_holdings_snapshot` equals the holdings mapping at
that instant (`none` when the holdings are empty), and the operation appends
exactly that one transaction to the ledger. -/
theorem c5_snapshot_consistency :
    (∀ (uid : String) (dep : ℚ) (cur : String) (ts : ℤ) (a' : Account),
      Account.create uid dep cur ts = .ok a' →
      ∀ tx ∈ a'.ledger,
        tx.resulting_cash_balance = a'.cash ∧
        tx.resulting_holdings_snapshot =
          (if a'.holdings.isEmpty then none else some a'.holdings)) ∧
    (∀ (a : Account) (amt : ℚ) (ts : ℤ) (note : Option String) (a' : Account)
        (tx : Transaction),
      a.deposit amt ts note = .ok (a', tx) →
      tx.resulting_cash_balance = a'.cash ∧
      tx.resulting_holdings_snapshot =
        (if a'.holdings.isEmpty then none else some a'.holdings) ∧
      a'.ledger = a.ledger ++ [tx]) ∧
    (∀ (a : Account) (amt : ℚ) (ts : ℤ) (note : Option String) (a' : Account)
        (tx : Transaction),
      a.withdraw amt ts note = .ok (a', tx) →
      tx.resulting_cash_balance = a'.cash ∧
      tx.resulting_holdings_snapshot =
        (if a'.holdings.isEmpty then none else some a'.holdings) ∧
      a'.ledger = a.ledger ++ [tx]) ∧
    (∀ (a : Account) (s : String) (q : ℤ) (pl : Option PriceFn) (ts : ℤ)
        (note : Option String) (a' : Account) (tx : Transaction),
      (a.buy s q pl ts note).1 = .ok (a', tx) →
      tx.resulting_cash_balance = a'.cash ∧
      tx.resulting_holdings_snapshot =
        (if a'.holdings.isEmpty then none else some a'.holdings) ∧
      a'.ledger = a.ledger ++ [tx]) ∧
    (∀ (a : Account) (s : String) (q : ℤ) (pl : Option PriceFn) (ts : ℤ)
        (note : Option String) (a' : Account) (tx : Transaction),
      (a.sell s q pl ts note).1 = .ok (a', tx) →
      tx.resulting_cash_balance = a'.cash ∧
      tx.resulting_holdings_snapshot =
        (if a'.holdings.isEmpty then none else some a'.holdings) ∧
      a'.ledger = a.ledger ++ [tx]) := by
  refine ⟨?_, ?_, ?_, ?_, ?_⟩
  · intro uid dep cur ts a' h tx htx
    rcases create_ok_iff.mp h with ⟨-, ⟨hpos, rfl⟩ | ⟨-, rfl⟩⟩
    · simp only [record_transaction_fst] at htx ⊢
      simp only [List.nil_append, List.mem_singleton] at htx
      subst htx
      exact ⟨quantize_idem _, rfl⟩
    · simp at htx
  · intro a amt ts note a' tx h
    obtain ⟨-, heq⟩ := deposit_ok_iff.mp h
    obtain ⟨rfl, rfl⟩ := Prod.mk.injEq _ _ _ _ |>.mp heq.symm
    exact record_snapshot_fields _ _ _ _ _ _ _ _ (quantize_idem _)
  · intro a amt ts note a' tx h
    obtain ⟨-, -, heq⟩ := withdraw_ok_iff.mp h
    obtain ⟨rfl, rfl⟩ := Prod.mk.injEq _ _ _ _ |>.mp heq.symm
    exact record_snapshot_fields _ _ _ _ _ _ _ _ (quantize_idem _)
  · intro a s q pl ts note a' tx h
    obtain ⟨-, -, price, -, -, heq⟩ := buy_ok_iff.mp h
    obtain ⟨rfl, rfl⟩ := Prod.mk.injEq _ _ _ _ |>.mp heq.symm
    exact record_snapshot_fields _ _ _ _ _ _ _ _ (quantize_idem _)
  · intro a s q pl ts note a' tx h
    obtain ⟨-, -, -, price, -, heq⟩ := sell_ok_iff.mp h
    obtain ⟨rfl, rfl⟩ := Prod.mk.injEq _ _ _ _ |>.mp heq.symm
    exact record_snapshot_fields _ _ _ _ _ _ _ _ (quantize_idem _)

/-- The transaction recorded by depositing 100.00 into `acct_zero`. -/
def tx_dep_hundred : Transaction :=
  { id := "0"
    type := "deposit"
    amount := 100
    symbol := none
    quantity := none
    price_per_share := none
    total := 100
    timestamp := 0
    note := none
    resulting_cash_balance := 100
    resulting_holdings_snapshot := none }

/-- `acct_zero` after depositing 100.00. -/
def acct_dep_hundred : Account :=
  { user_id := "u"
    currency := "USD"
    cash := 100
    holdings := []
    ledger := [tx_dep_hundred]
    initial_deposit := 0
    total_deposits := 100
    total_withdrawals := 0 }

theorem deposit_acct_zero :
    acct_zero.deposit 100 0 none = .ok (acct_dep_hundred, tx_dep_hundred) := by
  rw [deposit_ok_iff]
  have h100 : quantize_currency_q 100 = 100 :=
    quantize_eq_of_isMoney ⟨10000, by norm_num⟩
  have h0s : toString (0 : ℕ) = "0" := rfl
  refine ⟨by norm_num, ?_⟩
  simp [record_transaction, acct_zero, acct_dep_hundred, tx_dep_hundred,
    h100, h0s]

/-- Witness for C5: the transaction recorded by a concrete deposit snapshots
the new cash, the (empty) holdings and extends the ledger by itself. -/
theorem c5_snapshot_consistency_witness :
    tx_dep_hundred.resulting_cash_balance = acct_dep_hundred.cash ∧
    tx_dep_hundred.resulting_holdings_snapshot =
      (if acct_dep_hundred.holdings.isEmpty then none
       else some acct_dep_hundred.holdings) ∧
    acct_dep_hundred.ledger = acct_zero.ledger ++ [tx_dep_hundred] :=
  c5_snapshot_consistency.2.1 acct_zero 100 0 none acct_dep_hundred
    tx_dep_hundred deposit_acct_zero

/-! ## C6: the serialization round trip is the identity -/

theorem tx_round_trip (t : Transaction) :
    Transaction.from_dict (Transaction.to_dict t) = t := rfl

/-- **C6**: for every account with a non-empty user id whose account-level
money fields are Money values (as every account produced by the engine is),
`from_dict (to_dict a)` succeeds and returns an account with identical cash,
holdings, initial_deposit, totals, currency and user id, and a ledger of the
same length whose transactions are field-for-field identical and in the same
order; every Money field crosses the boundary as the exact value its decimal
string denotes and every timestamp crosses in a reversible representation. -/
theorem c6_round_trip {a : Account} (hu : a.user_id ≠ "")
    (hc : IsMoney a.cash) (hi : IsMoney a.initial_deposit)
    (hd : IsMoney a.total_deposits) (hw : IsMoney a.total_withdrawals) :
    Account.from_dict a.to_dict = .ok a := by
  obtain ⟨uid, cur, cash, holdings, ledger, init, td, tw⟩ := a
  have hcreate : Account.create uid 0 cur 0 =
      .ok { user_id := uid
            currency := cur
            cash := quantize_currency_q 0
            holdings := []
            ledger := []
            initial_deposit := quantize_currency_q 0
            total_deposits := 0
            total_withdrawals := 0 } := by
    rw [create_ok_iff]
    exact ⟨hu, Or.inr ⟨by rw [quantize_zero]; norm_num, rfl⟩⟩
  simp only [Account.to_dict, Account.from_dict]
  rw [hcreate]
  simp only [Except.ok.injEq]
  simp only at hc hi hd hw
  simp [quantize_eq_of_isMoney hc, quantize_eq_of_isMoney hi,
    quantize_eq_of_isMoney hd, quantize_eq_of_isMoney hw,
    List.map_map, Function.comp_def, tx_round_trip]

/-- Witness for C6: the round trip on a concrete account with one ledger
entry reproduces the account exactly. -/
theorem c6_round_trip_witness :
    Account.from_dict acct_dep_hundred.to_dict = .ok acct_dep_hundred :=
  c6_round_trip (by decide) ⟨10000, by norm_num [acct_dep_hundred]⟩
    ⟨0, by norm_num [acct_dep_hundred]⟩
    ⟨10000, by norm_num [acct_dep_hundred]⟩
    ⟨0, by norm_num [acct_dep_hundred]⟩

/-! ## C7: the quantization helper's contract -/

theorem quantize_near (q : ℚ) : |quantize_currency_q q - q| ≤ 1 / 200 := by
  unfold quantize_currency_q
  have h := roundHalfUp_near (x := q * 100)
  have heq : (roundHalfUp (q * 100) : ℚ) / 100 - q =
      ((roundHalfUp (q * 100) : ℚ) - q * 100) / 100 := by ring
  rw [heq, abs_div, abs_of_pos (by norm_num : (0:ℚ) < 100)]
  linarith

theorem quantize_tie_away {q : ℚ}
    (h : |quantize_currency_q q - q| = 1 / 200) :
    |q| ≤ |quantize_currency_q q| := by
  unfold quantize_currency_q at h ⊢
  have heq : (roundHalfUp (q * 100) : ℚ) / 100 - q =
      ((roundHalfUp (q * 100) : ℚ) - q * 100) / 100 := by ring
  rw [heq, abs_div, abs_of_pos (by norm_num : (0:ℚ) < 100)] at h
  have h2 : |(roundHalfUp (q * 100) : ℚ) - q * 100| = 1 / 2 := by linarith
  have h3 := roundHalfUp_tie_away h2
  rw [abs_mul, abs_of_pos (by norm_num : (0:ℚ) < 100)] at h3
  rw [abs_div, abs_of_pos (by norm_num : (0:ℚ) < 100)]
  linarith

/-- **C7**: on a `Decimal` input the quantization helper returns the value
rounded half-up to exactly 2 fraction digits (a whole number of cents, at
distance ≤ 1/200 from the input, with ties resolved away from zero), and on
any input that is not a `Decimal` — e.g. a raw binary float, however
imprecise — it fails with `InvalidTransaction`. -/
theorem c7_quantize_contract :
    (∀ q : ℚ,
      quantize_currency (.dec q) = .ok (quantize_currency_q q) ∧
      IsMoney (quantize_currency_q q) ∧
      |quantize_currency_q q - q| ≤ 1 / 200 ∧
      (|quantize_currency_q q - q| = 1 / 200 →
        |q| ≤ |quantize_currency_q q|)) ∧
    (∀ v : PyValue, (∀ q, v ≠ .dec q) →
      quantize_currency v = .error .invalidTransaction) := by
  constructor
  · intro q
    exact ⟨rfl, isMoney_quantize q, quantize_near q, quantize_tie_away⟩
  · intro v hv
    cases v with
    | dec q => exact absurd rfl (hv q)
    | pyFloat q => rfl
    | pyInt n => rfl

/-- Witness for C7: a raw float input is rejected, and a decimal tie input is
quantized (0.005 rounds away from zero to 0.01). -/
theorem c7_quantize_contract_witness :
    quantize_currency (.pyFloat (1 / 10)) = .error .invalidTransaction ∧
    quantize_currency (.dec (1 / 200)) = .ok (quantize_currency_q (1 / 200)) ∧
    quantize_currency_q (1 / 200) = 1 / 100 := by
  refine ⟨c7_quantize_contract.2 (.pyFloat (1 / 10))
      (fun q h => PyValue.noConfusion h),
    (c7_quantize_contract.1 (1 / 200)).1, ?_⟩
  norm_num [quantize_currency_q, roundHalfUp]

/-! ## C8: portfolio value, equity and the two profit/loss baselines -/

/-- Lift a total price table into the price-capability type. -/
def price_fn_of (p : String → ℚ) : PriceFn := fun s => .ok (p s)

/-- The spec-side valuation: the sum over the held symbols of the quantized
per-symbol subtotal `quantize(price(symbol) × quantity)`. -/
def portfolio_sum (p : String → ℚ) (d : List (String × ℤ)) : ℚ :=
  (d.map (fun pr => quantize_currency_q (p pr.1 * (pr.2 : ℚ)))).sum

theorem isMoney_portfolio_sum (p : String → ℚ) (d : List (String × ℤ)) :
    IsMoney (portfolio_sum p d) := by
  induction d with
  | nil => exact IsMoney.zero
  | cons hd tl ih =>
    simpa [portfolio_sum, List.map_cons, List.sum_cons] using
      (isMoney_quantize _).add ih

theorem portfolio_loop_ok (p : String → ℚ) (hp : ∀ s, IsMoney (p s)) :
    ∀ (d : List (String × ℤ)) (acc : ℚ), IsMoney acc →
      portfolio_loop (price_fn_of p) d acc = .ok (acc + portfolio_sum p d) := by
  intro d
  induction d with
  | nil =>
    intro acc hm
    simp [portfolio_loop, portfolio_sum, quantize_eq_of_isMoney hm]
  | cons hd tl ih =>
    intro acc hm
    obtain ⟨s, n⟩ := hd
    simp only [portfolio_loop, price_fn_of]
    rw [quantize_eq_of_isMoney (hp s),
      ih _ (hm.add (isMoney_quantize _))]
    simp only [portfolio_sum, List.map_cons, List.sum_cons, Except.ok.injEq]
    ring

/-- **C8**: with a price table of Money prices, `get_portfolio_value` is the
sum of the quantized per-symbol subtotals (not one globally rounded sum),
`get_total_equity` is cash plus that portfolio value,
`get_profit_loss_from_initial` is equity minus the initial deposit, and
`get_profit_loss_from_net_deposits` is equity minus net contributed capital. -/
theorem c8_valuation_queries {a : Account} (p : String → ℚ)
    (hp : ∀ s, IsMoney (p s)) (hc : IsMoney a.cash)
    (hi : IsMoney a.initial_deposit) (hd : IsMoney a.total_deposits)
    (hw : IsMoney a.total_withdrawals) :
    a.get_portfolio_value (some (price_fn_of p)) =
      .ok (portfolio_sum p a.holdings) ∧
    a.get_total_equity (some (price_fn_of p)) =
      .ok (a.cash + portfolio_sum p a.holdings) ∧
    a.get_profit_loss_from_initial (some (price_fn_of p)) =
      .ok (a.cash + portfolio_sum p a.holdings - a.initial_deposit) ∧
    a.get_profit_loss_from_net_deposits (some (price_fn_of p)) =
      .ok (a.cash + portfolio_sum p a.holdings -
        (a.total_deposits - a.total_withdrawals)) := by
  have hpv : a.get_portfolio_value (some (price_fn_of p)) =
      .ok (portfolio_sum p a.holdings) := by
    unfold Account.get_portfolio_value
    rw [Option.getD_some, portfolio_loop_ok p hp a.holdings 0 IsMoney.zero,
      zero_add]
  have hsum := isMoney_portfolio_sum p a.holdings
  have heq : a.get_total_equity (some (price_fn_of p)) =
      .ok (a.cash + portfolio_sum p a.holdings) := by
    unfold Account.get_total_equity
    rw [hpv]
    show Except.ok (quantize_currency_q
      (a.get_cash_balance + portfolio_sum p a.holdings)) = _
    unfold Account.get_cash_balance
    rw [quantize_eq_of_isMoney hc, quantize_eq_of_isMoney (hc.add hsum)]
  refine ⟨hpv, heq, ?_, ?_⟩
  · unfold Account.get_profit_loss_from_initial
    rw [heq]
    show Except.ok (quantize_currency_q
      (a.cash + portfolio_sum p a.holdings -
        quantize_currency_q a.initial_deposit)) = _
    rw [quantize_eq_of_isMoney hi,
      quantize_eq_of_isMoney ((hc.add hsum).sub hi)]
  · unfold Account.get_profit_loss_from_net_deposits
    rw [heq]
    show Except.ok (quantize_currency_q
      (a.cash + portfolio_sum p a.holdings -
        quantize_currency_q (a.total_deposits - a.total_withdrawals))) = _
    rw [quantize_eq_of_isMoney (hd.sub hw),
      quantize_eq_of_isMoney ((hc.add hsum).sub (hd.sub hw))]

/-- Witness for C8: the portfolio value and total equity of a concrete
account holding 1 AAPL valued at 150.00 with no cash. -/
theorem c8_valuation_queries_witness :
    acct_hold.get_portfolio_value (some (price_fn_of (fun _ => 150))) =
      .ok 150 ∧
    acct_hold.get_total_equity (some (price_fn_of (fun _ => 150))) =
      .ok 150 := by
  have h150 : quantize_currency_q 150 = 150 :=
    quantize_eq_of_isMoney ⟨15000, by norm_num⟩
  have h := c8_valuation_queries (a := acct_hold) (fun _ => 150)
    (fun s => ⟨15000, by norm_num⟩) ⟨0, by norm_num [acct_hold]⟩
    ⟨0, by norm_num [acct_hold]⟩ ⟨0, by norm_num [acct_hold]⟩
    ⟨0, by norm_num [acct_hold]⟩
  have hps : portfolio_sum (fun _ => 150) acct_hold.holdings = 150 := by
    simp [portfolio_sum, acct_hold, h150]
  constructor
  · rw [h.1, hps]
  · rw [h.2.1, hps]
    norm_num [acct_hold]

/-! ## C9: list_transactions is an order-preserving inclusive filter -/

theorem option_any_lt_eq_false {o : Option ℤ} {t : ℤ} :
    (o.any (fun s => decide (t < s))) = false ↔ ∀ s ∈ o, s ≤ t := by
  cases o <;> simp [not_lt]

theorem option_any_gt_eq_false {o : Option ℤ} {t : ℤ} :
    (o.any (fun e => decide (e < t))) = false ↔ ∀ e ∈ o, t ≤ e := by
  cases o <;> simp [not_lt]

theorem option_any_notin_eq_false {o : Option (List String)} {t : String} :
    (o.any (fun ts => decide (t ∉ ts))) = false ↔ ∀ ts ∈ o, t ∈ ts := by
  cases o <;> simp

theorem list_transactions_loop_eq (st et : Option ℤ)
    (ty : Option (List String)) (l : List Transaction) :
    list_transactions_loop st et ty l =
      l.filter (fun tx =>
        decide (∀ s ∈ st, s ≤ tx.timestamp) &&
        decide (∀ e ∈ et, tx.timestamp ≤ e) &&
        decide (∀ ts ∈ ty, tx.type ∈ ts)) := by
  induction l with
  | nil => rfl
  | cons tx rest ih =>
    simp only [list_transactions_loop, ih, List.filter_cons]
    cases hA : st.any (fun s => decide (tx.timestamp < s)) with
    | true =>
      have hno : ¬ ∀ s ∈ st, s ≤ tx.timestamp := by
        intro hall
        rw [option_any_lt_eq_false.mpr hall] at hA
        cases hA
      simp only [Option.mem_def] at hno
      simp [hA, hno]
    | false =>
      have h1 : ∀ s ∈ st, s ≤ tx.timestamp := option_any_lt_eq_false.mp hA
      cases hB : et.any (fun e => decide (e < tx.timestamp)) with
      | true =>
        have hno : ¬ ∀ e ∈ et, tx.timestamp ≤ e := by
          intro hall
          rw [option_any_gt_eq_false.mpr hall] at hB
          cases hB
        simp only [Option.mem_def] at hno
        simp [hA, hB, hno]
      | false =>
        have h2 : ∀ e ∈ et, tx.timestamp ≤ e := option_any_gt_eq_false.mp hB
        cases hC : ty.any (fun ts => decide (tx.type ∉ ts)) with
        | true =>
          have hno : ¬ ∀ ts ∈ ty, tx.type ∈ ts := by
            intro hall
            rw [option_any_notin_eq_false.mpr hall] at hC
            cases hC
          simp only [Option.mem_def] at hno
          simp [hA, hB, hC, hno]
        | false =>
          have h3 : ∀ ts ∈ ty, tx.type ∈ ts := option_any_notin_eq_false.mp hC
          simp only [Option.mem_def] at h1 h2 h3
          simp [hA, hB, hC]
          exact (if_pos ⟨⟨h1, h2⟩, h3⟩).symm

/-- **C9**: `list_transactions` returns exactly the ledger entries whose
timestamp lies inclusively between the given bounds and whose type is in the
allowed set, as a filter of the ledger (hence preserving insertion order);
each omitted argument imposes no constraint, and with no arguments the whole
ledger is returned in order. -/
theorem c9_list_transactions (a : Account) (start_time end_time : Option ℤ)
    (types : Option (List String)) :
    a.list_transactions start_time end_time types =
      a.ledger.filter (fun tx =>
        decide (∀ s ∈ start_time, s ≤ tx.timestamp) &&
        decide (∀ e ∈ end_time, tx.timestamp ≤ e) &&
        decide (∀ ts ∈ types, tx.type ∈ ts)) ∧
    a.list_transactions none none none = a.ledger := by
  constructor
  · exact list_transactions_loop_eq start_time end_time types a.ledger
  · rw [Account.list_transactions,
      list_transactions_loop_eq none none none a.ledger]
    simp

/-! ## C10: from_dict installs the record verbatim, with no validation -/

/-- **C10**: `from_dict` performs no solvency or range validation: for every
well-shaped record with a non-empty user id it succeeds and installs the
given cash, holdings, totals and ledger verbatim (quantizing only the
account-level Money fields) — even when cash is negative or a holdings
quantity is zero or negative — so the `cash ≥ 0` / `holdings > 0` invariant
is guaranteed only for states reached through the operation API. -/
theorem c10_from_dict_no_validation (d : AccountDict) (hu : d.user_id ≠ "") :
    Account.from_dict d = .ok
      { user_id := d.user_id
        currency := d.currency
        cash := quantize_currency_q d.cash
        holdings := d.holdings
        ledger := d.ledger.map Transaction.from_dict
        initial_deposit := quantize_currency_q d.initial_deposit
        total_deposits := quantize_currency_q d.total_deposits
        total_withdrawals := quantize_currency_q d.total_withdrawals } := by
  have hcreate : Account.create d.user_id 0 d.currency 0 =
      .ok { user_id := d.user_id
            currency := d.currency
            cash := quantize_currency_q 0
            holdings := []
            ledger := []
            initial_deposit := quantize_currency_q 0
            total_deposits := 0
            total_withdrawals := 0 } := by
    rw [create_ok_iff]
    exact ⟨hu, Or.inr ⟨by rw [quantize_zero]; norm_num, rfl⟩⟩
  unfold Account.from_dict
  rw [hcreate]

/-- A serialized record that no reachable account could produce: negative
cash and a zero-quantity holding. -/
def dict_insolvent : AccountDict :=
  { user_id := "u"
    currency := "USD"
    cash := -5
    holdings := [("AAPL", 0)]
    initial_deposit := 0
    total_deposits := 0
    total_withdrawals := 0
    ledger := [] }

/-- Witness for C10: deserializing a record with cash −5.00 and a holding of
quantity 0 succeeds and installs both verbatim. -/
theorem c10_from_dict_no_validation_witness :
    Account.from_dict dict_insolvent = .ok
      { user_id := "u"
        currency := "USD"
        cash := -5
        holdings := [("AAPL", 0)]
        ledger := []
        initial_deposit := 0
        total_deposits := 0
        total_withdrawals := 0 } := by
  have h := c10_from_dict_no_validation dict_insolvent (by decide)
  rw [h]
  have hm5 : quantize_currency_q (-5) = -5 :=
    quantize_eq_of_isMoney ⟨-500, by norm_num⟩
  simp [dict_insolvent, hm5, quantize_zero]
